import Mathlib

/-!
Verification development for the RSS link-resolution engine
(`src/newspeaker/rss/resolve_links.py`).

The Python code is shallowly embedded: pure helpers become Lean functions
over `List Char` / `String`; the effectful strategy chain of `_resolve_one`
is embedded as a function of an explicit environment recording the outcome
of each external interaction (HTTP request, page navigation, DOM probes),
returning the task's result as an `Except` (Python exceptions escaping the
task) together with the list of performed effects.  The parts of CPython's
`urllib.parse` used by the code (`urlparse`, `parse_qs`, `urljoin`) are
embedded from the 3.11 standard-library source.  Unicode-sensitive details
(`str.lower`, `\s`, `str.strip`) are embedded for the ASCII range, which
covers every input considered here.
-/

namespace Newspeaker

/-- The double-quote character. -/
def dq : Char := Char.ofNat 34

/-- The single-quote character. -/
def sq : Char := Char.ofNat 39

/-- ASCII lower-casing, as `str.lower` acts on ASCII characters. -/
def lowerChar (c : Char) : Char :=
  if 65 ≤ c.toNat ∧ c.toNat ≤ 90 then Char.ofNat (c.toNat + 32) else c

/-- ASCII alphabetic test (`url[0].isascii() and url[0].isalpha()`). -/
def isAsciiAlpha (c : Char) : Bool :=
  (65 ≤ c.toNat ∧ c.toNat ≤ 90) ∨ (97 ≤ c.toNat ∧ c.toNat ≤ 122)

/-- ASCII digit test. -/
def isAsciiDigit (c : Char) : Bool := 48 ≤ c.toNat ∧ c.toNat ≤ 57

/-- Characters valid in URL scheme names (`scheme_chars`). -/
def isSchemeChar (c : Char) : Bool :=
  isAsciiAlpha c ∨ isAsciiDigit c ∨ c = '+' ∨ c = '-' ∨ c = '.'

/-- ASCII whitespace, the ASCII part of both regex `\s` and `str.strip()`. -/
def isPySpace (c : Char) : Bool :=
  c.toNat = 32 ∨ c.toNat = 9 ∨ c.toNat = 10 ∨ c.toNat = 13 ∨ c.toNat = 11 ∨ c.toNat = 12

/-- `s` starts with `pat` (case-sensitive). -/
def lstartsWith : List Char → List Char → Bool
  | _, [] => true
  | [], _ :: _ => false
  | c :: s, p :: ps => if c = p then lstartsWith s ps else false

/-- `s` starts with `pat`, comparing ASCII case-insensitively. -/
def lstartsWithCI : List Char → List Char → Bool
  | _, [] => true
  | [], _ :: _ => false
  | c :: s, p :: ps => if lowerChar c = lowerChar p then lstartsWithCI s ps else false

/-- `pat` occurs somewhere in `s` (case-sensitive), like Python `in`. -/
def containsSub : List Char → List Char → Bool
  | [], pat => lstartsWith [] pat
  | c :: t, pat => lstartsWith (c :: t) pat || containsSub t pat

/-- `pat` occurs somewhere in `s`, ASCII case-insensitively. -/
def containsSubCI : List Char → List Char → Bool
  | [], pat => lstartsWithCI [] pat
  | c :: t, pat => lstartsWithCI (c :: t) pat || containsSubCI t pat

/-- `s` ends with `suf` (Python `str.endswith`). -/
def lendsWith (s suf : List Char) : Bool :=
  lstartsWith (s.drop (s.length - suf.length)) suf

/-- Suffix of `s` after the first occurrence of `pat`
(Python `s.split(pat, 1)[1]`); `none` when `pat` does not occur. -/
def splitAfterFirst : List Char → List Char → Option (List Char)
  | s, pat =>
    if lstartsWith s pat then some (s.drop pat.length)
    else match s with
      | [] => none
      | _ :: t => splitAfterFirst t pat

/-- `c` occurs in `l` (Python `c in s`). -/
def hasChar (l : List Char) (c : Char) : Bool := l.any (fun x => x = c)

/-- Split at the first occurrence of `sep`, dropping the separator
(Python `s.split(sep, 1)` / `s.partition(sep)` when present). -/
def breakAtChar (sep : Char) : List Char → Option (List Char × List Char)
  | [] => none
  | c :: t =>
    if c = sep then some ([], t)
    else match breakAtChar sep t with
      | some (a, b) => some (c :: a, b)
      | none => none

/-- Python `s.split(sep)` for a single-character separator. -/
def splitOnChar (sep : Char) : List Char → List (List Char)
  | [] => [[]]
  | c :: t =>
    let r := splitOnChar sep t
    if c = sep then [] :: r
    else match r with
      | [] => [[c]]
      | h :: t2 => (c :: h) :: t2

/-- Python `str.strip()` restricted to ASCII whitespace. -/
def pyStrip (l : List Char) : List Char :=
  ((l.dropWhile isPySpace).reverse.dropWhile isPySpace).reverse

/-- Value of one hexadecimal digit, if `c` is one. -/
def hexDigitVal (c : Char) : Option Nat :=
  if 48 ≤ c.toNat ∧ c.toNat ≤ 57 then some (c.toNat - 48)
  else if 65 ≤ c.toNat ∧ c.toNat ≤ 70 then some (c.toNat - 55)
  else if 97 ≤ c.toNat ∧ c.toNat ≤ 102 then some (c.toNat - 87)
  else none

/-- Is `b` a UTF-8 continuation byte? -/
def isCont (b : Nat) : Bool := 128 ≤ b ∧ b ≤ 191

/-- UTF-8 decoding with maximal-subpart replacement (the behavior of
`bytes.decode("utf-8", errors="replace")`), fuel-driven. -/
def utf8Aux : Nat → List Nat → List Char
  | 0, _ => []
  | _ + 1, [] => []
  | fuel + 1, b :: t =>
    let repl : Char := Char.ofNat 0xFFFD
    if b < 0x80 then Char.ofNat b :: utf8Aux fuel t
    else if 0xC2 ≤ b ∧ b ≤ 0xDF then
      match t with
      | b2 :: t2 =>
        if isCont b2 then Char.ofNat ((b - 0xC0) * 64 + (b2 - 0x80)) :: utf8Aux fuel t2
        else repl :: utf8Aux fuel t
      | [] => [repl]
    else if 0xE0 ≤ b ∧ b ≤ 0xEF then
      let lo2 : Nat := if b = 0xE0 then 0xA0 else 0x80
      let hi2 : Nat := if b = 0xED then 0x9F else 0xBF
      match t with
      | b2 :: t2 =>
        if lo2 ≤ b2 ∧ b2 ≤ hi2 then
          match t2 with
          | b3 :: t3 =>
            if isCont b3 then
              Char.ofNat ((b - 0xE0) * 4096 + (b2 - 0x80) * 64 + (b3 - 0x80)) :: utf8Aux fuel t3
            else repl :: utf8Aux fuel t2
          | [] => [repl]
        else repl :: utf8Aux fuel t
      | [] => [repl]
    else if 0xF0 ≤ b ∧ b ≤ 0xF4 then
      let lo2 : Nat := if b = 0xF0 then 0x90 else 0x80
      let hi2 : Nat := if b = 0xF4 then 0x8F else 0xBF
      match t with
      | b2 :: t2 =>
        if lo2 ≤ b2 ∧ b2 ≤ hi2 then
          match t2 with
          | b3 :: t3 =>
            if isCont b3 then
              match t3 with
              | b4 :: t4 =>
                if isCont b4 then
                  Char.ofNat ((b - 0xF0) * 262144 + (b2 - 0x80) * 4096 +
                    (b3 - 0x80) * 64 + (b4 - 0x80)) :: utf8Aux fuel t4
                else repl :: utf8Aux fuel t3
              | [] => [repl]
            else repl :: utf8Aux fuel t2
          | [] => [repl]
        else repl :: utf8Aux fuel t
      | [] => [repl]
    else repl :: utf8Aux fuel t

/-- UTF-8 decoding with replacement. -/
def utf8DecodeReplace (bs : List Nat) : List Char := utf8Aux (bs.length * 4) bs

/-- Collect a maximal run of `%XY` percent-escapes into bytes, returning the
bytes and the unconsumed remainder. -/
def collectPct : List Char → List Nat × List Char
  | p :: h1 :: h2 :: t =>
    if p = '%' then
      match hexDigitVal h1, hexDigitVal h2 with
      | some a, some b =>
        let r := collectPct t
        ((16 * a + b) :: r.1, r.2)
      | _, _ => ([], p :: h1 :: h2 :: t)
    else ([], p :: h1 :: h2 :: t)
  | l => ([], l)

/-- Fuel-driven core of `urllib.parse.unquote` (UTF-8, `errors="replace"`). -/
def unquoteAux : Nat → List Char → List Char
  | 0, l => l
  | _ + 1, [] => []
  | fuel + 1, c :: t =>
    if c = '%' then
      match collectPct (c :: t) with
      | ([], _) => c :: unquoteAux fuel t
      | (bs, r) => utf8DecodeReplace bs ++ unquoteAux fuel r
    else c :: unquoteAux fuel t

/-- `urllib.parse.unquote` with the default UTF-8 / replace parameters. -/
def pyUnquote (l : List Char) : List Char := unquoteAux l.length l

/-- The `.replace("+", " ")` step of `parse_qsl`. -/
def plusToSpace (l : List Char) : List Char :=
  l.map (fun c => if c = '+' then ' ' else c)

/-! ## `urllib.parse`: splitting and joining URLs (CPython 3.11) -/

/-- Result of `urlsplit`. -/
structure SplitResult where
  scheme : List Char
  netloc : List Char
  path : List Char
  query : List Char
  fragment : List Char
deriving DecidableEq

/-- Result of `urlparse` (adds the `params` component). -/
structure ParseResult where
  scheme : List Char
  netloc : List Char
  path : List Char
  params : List Char
  query : List Char
  fragment : List Char
deriving DecidableEq

/-- `_UNSAFE_URL_BYTES_TO_REMOVE`: tab, CR and LF are removed everywhere. -/
def remUnsafe (l : List Char) : List Char :=
  l.filter (fun c => ¬(c.toNat = 9 ∨ c.toNat = 13 ∨ c.toNat = 10))

/-- Scheme detection of `urlsplit`: split at the first `:` when the part
before it is a nonempty run of scheme characters starting with an ASCII
letter; otherwise keep the default scheme. -/
def schemeSplit (url defScheme : List Char) : List Char × List Char :=
  match breakAtChar ':' url with
  | some (pre, post) =>
    match pre with
    | [] => (defScheme, url)
    | c0 :: _ =>
      if isAsciiAlpha c0 ∧ pre.all isSchemeChar then (pre.map lowerChar, post)
      else (defScheme, url)
  | none => (defScheme, url)

/-- `_splitnetloc`: the netloc extends to the first `/`, `?` or `#`. -/
def netlocDelim (c : Char) : Bool := c = '/' ∨ c = '?' ∨ c = '#'

/-- `urlsplit(url, scheme)` (fragment splitting allowed, as the code uses). -/
def urlsplitL (url0 defScheme0 : List Char) : SplitResult :=
  let url1 := remUnsafe url0
  let defScheme := remUnsafe defScheme0
  let sr := schemeSplit url1 defScheme
  let scheme := sr.1
  let u2 := sr.2
  let nl :=
    if lstartsWith u2 ['/', '/'] then
      let body := u2.drop 2
      (body.takeWhile (fun c => ¬netlocDelim c), body.dropWhile (fun c => ¬netlocDelim c))
    else ([], u2)
  let netloc := nl.1
  let u3 := nl.2
  let fr :=
    match breakAtChar '#' u3 with
    | some (a, b) => (a, b)
    | none => (u3, [])
  let u4 := fr.1
  let fragment := fr.2
  let qr :=
    match breakAtChar '?' u4 with
    | some (a, b) => (a, b)
    | none => (u4, [])
  ⟨scheme, netloc, qr.1, qr.2, fragment⟩

/-- `uses_params` scheme list. -/
def usesParams : List (List Char) :=
  ["", "ftp", "hdl", "prospero", "http", "imap", "https", "shttp", "rtsp",
   "rtspu", "sip", "sips", "mms", "sftp", "tel"].map String.data

/-- `uses_relative` scheme list. -/
def usesRelative : List (List Char) :=
  ["", "ftp", "http", "gopher", "nntp", "imap", "wais", "file", "https",
   "shttp", "mms", "prospero", "rtsp", "rtspu", "sftp", "svn", "svn+ssh",
   "ws", "wss"].map String.data

/-- `uses_netloc` scheme list. -/
def usesNetloc : List (List Char) :=
  ["", "ftp", "http", "gopher", "nntp", "telnet", "imap", "wais", "file",
   "mms", "https", "shttp", "snews", "prospero", "rtsp", "rtspu", "rsync",
   "svn", "svn+ssh", "sftp", "nfs", "git", "git+ssh", "ws", "wss"].map String.data

/-- `_splitparams`: split `;params` off the last path segment. -/
def splitparams (p : List Char) : List Char × List Char :=
  if hasChar p '/' then
    match breakAtChar '/' p.reverse with
    | some (sufR, preR) =>
      match breakAtChar ';' sufR.reverse with
      | some (a, b) => (preR.reverse ++ '/' :: a, b)
      | none => (p, [])
    | none => (p, [])
  else
    match breakAtChar ';' p with
    | some (a, b) => (a, b)
    | none => (p, [])

/-- `urlparse(url, scheme)`. -/
def urlparseL (url defScheme : List Char) : ParseResult :=
  let s := urlsplitL url defScheme
  if s.scheme ∈ usesParams ∧ hasChar s.path ';' then
    let pp := splitparams s.path
    ⟨s.scheme, s.netloc, pp.1, pp.2, s.query, s.fragment⟩
  else
    ⟨s.scheme, s.netloc, s.path, [], s.query, s.fragment⟩

/-- `urlunsplit`. -/
def urlunsplitL (scheme netloc path query fragment : List Char) : List Char :=
  let url1 :=
    if netloc ≠ [] ∨ (scheme ≠ [] ∧ scheme ∈ usesNetloc ∧ ¬lstartsWith path ['/', '/']) then
      let p := if path ≠ [] ∧ ¬lstartsWith path ['/'] then '/' :: path else path
      '/' :: '/' :: (netloc ++ p)
    else path
  let url2 := if scheme ≠ [] then scheme ++ ':' :: url1 else url1
  let url3 := if query ≠ [] then url2 ++ '?' :: query else url2
  if fragment ≠ [] then url3 ++ '#' :: fragment else url3

/-- `urlunparse`. -/
def urlunparseL (scheme netloc path params query fragment : List Char) : List Char :=
  urlunsplitL scheme netloc (if params ≠ [] then path ++ ';' :: params else path)
    query fragment

/-- `segments[1:-1] = filter(None, segments[1:-1])`: keep the first and last
segments, drop empty middle segments. -/
def midFilter : List (List Char) → List (List Char)
  | [] => []
  | [x] => [x]
  | x :: xs => if x = [] then midFilter xs else x :: midFilter xs

/-- Keep the head, filter empties out of the middle. -/
def filterMid : List (List Char) → List (List Char)
  | [] => []
  | a :: rest => a :: midFilter rest

/-- The `..` / `.` resolution loop of `urljoin`. -/
def segFold (segs : List (List Char)) : List (List Char) :=
  segs.foldl
    (fun acc seg =>
      if seg = ['.', '.'] then acc.dropLast
      else if seg = ['.'] then acc
      else acc ++ [seg])
    []

/-- `urljoin(base, url)` (CPython 3.11). -/
def urljoinL (base url : List Char) : List Char :=
  if base = [] then url
  else if url = [] then base
  else
    let b := urlparseL base []
    let r := urlparseL url b.scheme
    if r.scheme ≠ b.scheme ∨ r.scheme ∉ usesRelative then url
    else if r.scheme ∈ usesNetloc ∧ r.netloc ≠ [] then
      urlunparseL r.scheme r.netloc r.path r.params r.query r.fragment
    else
      let netloc := if r.scheme ∈ usesNetloc then b.netloc else r.netloc
      if r.path = [] ∧ r.params = [] then
        let query := if r.query = [] then b.query else r.query
        urlunparseL r.scheme netloc b.path b.params query r.fragment
      else
        let baseParts0 := splitOnChar '/' b.path
        let baseParts :=
          if baseParts0.getLast? ≠ some [] then baseParts0.dropLast else baseParts0
        let segments :=
          if lstartsWith r.path ['/'] then splitOnChar '/' r.path
          else filterMid (baseParts ++ splitOnChar '/' r.path)
        let resolved0 := segFold segments
        let resolved :=
          if segments.getLast? = some ['.'] ∨ segments.getLast? = some ['.', '.'] then
            resolved0 ++ [[]]
          else resolved0
        let joined := List.intercalate ['/'] resolved
        urlunparseL r.scheme netloc (if joined = [] then ['/'] else joined)
          r.params r.query r.fragment

/-- `parse_qsl` with the default arguments used by the code: fields without
`=` and fields with a blank value are dropped; `+` becomes a space and
percent-escapes are decoded in both names and values. -/
def parse_qsl (qs : List Char) : List (List Char × List Char) :=
  if qs = [] then []
  else
    (splitOnChar '&' qs).filterMap fun nv =>
      if nv = [] then none
      else match breakAtChar '=' nv with
        | none => none
        | some (n, v) =>
          if v = [] then none
          else some (pyUnquote (plusToSpace n), pyUnquote (plusToSpace v))

/-- `parse_qs(qs).get(name, [None])[0]`: the first value bound to `name`. -/
def parseQsFirst (qs : List Char) (name : List Char) : Option (List Char) :=
  (parse_qsl qs).findSome? fun nv => if nv.1 = name then some nv.2 else none

/-! ## The repository's pure helpers (`resolve_links.py`) -/

/-- Locale configuration: `G_HL`, `G_GL`, `G_CEID`, read from
`GOOGLE_NEWS_HL` / `GOOGLE_NEWS_GL` / `GOOGLE_NEWS_CEID`. -/
structure LocaleConfig where
  hl : String
  gl : String
  ceid : String
deriving DecidableEq

/-- The configuration defaults: `es`, `ES`, `ES:es`. -/
def defaultLocale : LocaleConfig := ⟨"es", "ES", "ES:es"⟩

/-- `_try_decode_direct`: the first value of the `url` query parameter. -/
def _try_decode_direct (gn_link : String) : Option String :=
  match parseQsFirst (urlparseL gn_link.data []).query "url".data with
  | some v => some (String.mk v)
  | none => none

/-- `_maybe_add_locale`: on a `news.google.com` article-redirect link,
append the locale parameters to the raw link text.  Note the source builds
`f"{link}{sep}&hl=..."`, so at least one `&` always precedes `hl`, and no
`?` is ever introduced. -/
def _maybe_add_locale (cfg : LocaleConfig) (link : String) : String :=
  let u := urlparseL link.data []
  if lendsWith u.netloc "news.google.com".data && containsSub u.path "/rss/articles/".data then
    let sep := if u.query ≠ [] then "&" else ""
    link ++ sep ++ "&hl=" ++ cfg.hl ++ "&gl=" ++ cfg.gl ++ "&ceid=" ++ cfg.ceid
  else link

/-- `_looks_google`: the host ends with one of the aggregator suffixes. -/
def _looks_google (u : String) : Bool :=
  let host := (urlparseL u.data []).netloc
  lendsWith host "news.google.com".data || lendsWith host "consent.google.com".data ||
    lendsWith host "google.com".data

/-! ## The meta-refresh regular expression

`re.search(r'http-equiv=["\x27]?refresh["\x27]?\s+content=["\x27][^"\x27]*url=([^"\x27]+)', html, re.I)`
is embedded as an explicit matcher.  The optional quotes, the whitespace run
and the greedy `[^"\x27]*url=` backtracking are all deterministic for this
pattern, so the matcher below computes exactly the regex engine's match:
the leftmost starting position wins, and inside the quoted content value the
last `url=` occurrence (with a nonempty remainder) yields the capture. -/

/-- Quote character class `["\x27]`. -/
def isQuote (c : Char) : Bool := c = dq ∨ c = sq

/-- The literal `http-equiv=` of the pattern. -/
def litHttpEquiv : List Char := "http-equiv=".data

/-- The literal `refresh` of the pattern. -/
def litRefresh : List Char := "refresh".data

/-- The literal `content=` of the pattern. -/
def litContent : List Char := "content=".data

/-- The literal `url=` of the pattern. -/
def litUrlEq : List Char := "url=".data

/-- Drop a case-insensitive literal from the front, or fail. -/
def stripLitCI (s pat : List Char) : Option (List Char) :=
  if lstartsWithCI s pat then some (s.drop pat.length) else none

/-- Consume one optional quote character (`["\x27]?`). -/
def stripOptQuote : List Char → List Char
  | [] => []
  | c :: t => if isQuote c then t else c :: t

/-- Greedy `[^"\x27]*url=([^"\x27]+)` inside the non-quote run: the capture
of the last `url=` occurrence followed by at least one more character. -/
def lastUrlCapture : List Char → Option (List Char)
  | [] => none
  | c :: t =>
    match lastUrlCapture t with
    | some cap => some cap
    | none =>
      if lstartsWithCI (c :: t) litUrlEq ∧ (c :: t).drop litUrlEq.length ≠ [] then
        some ((c :: t).drop litUrlEq.length)
      else none

/-- Match `["\x27][^"\x27]*url=([^"\x27]+)` after `content=`. -/
def matchFromContent : List Char → Option (List Char)
  | [] => none
  | c :: t =>
    if isQuote c then lastUrlCapture (t.takeWhile (fun x => !isQuote x))
    else none

/-- Try to match the whole pattern at the head of `s`. -/
def matchAt (s : List Char) : Option (List Char) :=
  match stripLitCI s litHttpEquiv with
  | none => none
  | some s1 =>
    match stripLitCI (stripOptQuote s1) litRefresh with
    | none => none
    | some s3 =>
      let s4 := stripOptQuote s3
      if s4.takeWhile isPySpace = ([] : List Char) then none
      else
        match stripLitCI (s4.dropWhile isPySpace) litContent with
        | none => none
        | some s6 => matchFromContent s6

/-- `re.search`: the leftmost position at which the pattern matches. -/
def reSearchMeta : List Char → Option (List Char)
  | [] => matchAt []
  | c :: t =>
    match matchAt (c :: t) with
    | some cap => some cap
    | none => reSearchMeta t

/-- `_extract_meta_refresh(html, base)`: the captured target, stripped and
resolved against `base`; `none` when the pattern does not occur. -/
def _extract_meta_refresh (html : String) (base : String) : Option String :=
  match reSearchMeta html.data with
  | some cap => some (String.mk (urljoinL base.data (pyStrip cap)))
  | none => none

/-! ## The resolution task `_resolve_one`

Effects are supplied by an environment.  `ReqOutcome` is the outcome of
`context.request.get(...)` (a transport error, a falsy response, or a
response with its settled URL and body); `PageEnv` is the outcome of one
`_page_attempt` navigation (whether `page.goto` raised, what the canonical
/ `og:url` / meta-refresh probes of `_safe_get_attr` returned — those
swallow their own exceptions — and the page URL at the meta-resolution
point and after the settle wait).  Python exceptions that the code does
not catch are reflected in `Except`, and each external interaction is
recorded in an effect trace. -/

/-- Exceptions that can escape the embedded code. -/
inductive PyExn where
  /-- A playwright `TimeoutError` (or other error) from `page.goto`. -/
  | navTimeout
  /-- The `IndexError` from `meta.split("url=", 1)[1]` when the content
  attribute contains `url=` only in a different case. -/
  | indexError
deriving DecidableEq, Repr

/-- Outcome of the request-level strategy's `context.request.get`. -/
inductive ReqOutcome where
  /-- The awaited call raised (transport failure, timeout): caught. -/
  | err
  /-- A falsy response (`if resp:` fails). -/
  | noResp
  /-- A response: its final URL and its text (`none` when `resp.text()`
  raises, which the surrounding `try` also catches). -/
  | resp (url : String) (body : Option String)
deriving DecidableEq, Repr

/-- Environment of one `_page_attempt` call. -/
structure PageEnv where
  /-- `page.goto` raised (e.g. navigation timeout); not caught. -/
  gotoRaises : Bool
  /-- `_safe_get_attr(page, "head link[rel=canonical]", "href")`. -/
  canonical : Option String
  /-- `_safe_get_attr(page, "head meta[property='og:url']", "content")`. -/
  og : Option String
  /-- `_safe_get_attr(page, "head meta[http-equiv='refresh']", "content")`. -/
  metaContent : Option String
  /-- `page.url` when the meta-refresh target is resolved. -/
  urlAtMeta : String
  /-- `page.url` after the best-effort settle wait. -/
  urlAfterSettle : String
deriving DecidableEq

/-- Environment of one `_resolve_one` task: the request outcome and the
two possible page attempts (before and after consent cookies). -/
structure ResolveEnv where
  req : ReqOutcome
  page1 : PageEnv
  page2 : PageEnv
deriving DecidableEq

/-- External effects a task can perform. -/
inductive Eff where
  /-- The request-level `context.request.get`. -/
  | reqGet
  /-- One page-level navigation attempt. -/
  | page
  /-- `_bypass_consent` (`context.add_cookies`). -/
  | consent
deriving DecidableEq, Repr

/-- The settle fallback of `_page_attempt`: wait (exceptions swallowed),
then take `page.url` if truthy and not an aggregator host. -/
def settleStep (e : PageEnv) : Except PyExn (Option String) :=
  if e.urlAfterSettle ≠ "" ∧ _looks_google e.urlAfterSettle = false then
    .ok (some e.urlAfterSettle)
  else .ok none

/-- The meta-refresh probe of `_page_attempt` (lines 89-95), falling back
to `settleStep`. -/
def metaStep (e : PageEnv) : Except PyExn (Option String) :=
  match e.metaContent with
  | some meta =>
    if meta ≠ "" ∧ containsSub (meta.data.map lowerChar) litUrlEq = true then
      match splitAfterFirst meta.data litUrlEq with
      | some tail =>
        let target := pyStrip tail
        if target ≠ [] then
          let target2 := String.mk (urljoinL e.urlAtMeta.data target)
          if _looks_google target2 = false then .ok (some target2) else settleStep e
        else settleStep e
      | none => .error .indexError
    else settleStep e
  | none => settleStep e

/-- The `og:url` probe of `_page_attempt`, falling back to `metaStep`. -/
def ogStep (e : PageEnv) : Except PyExn (Option String) :=
  match e.og with
  | some og =>
    if og ≠ "" ∧ _looks_google og = false then .ok (some og) else metaStep e
  | none => metaStep e

/-- The canonical-link probe of `_page_attempt`, falling back to `ogStep`. -/
def canonicalStep (e : PageEnv) : Except PyExn (Option String) :=
  match e.canonical with
  | some c =>
    if c ≠ "" ∧ _looks_google c = false then .ok (some c) else ogStep e
  | none => ogStep e

/-- `_page_attempt(u)`: open a page, navigate, probe.  The `try/finally`
only guarantees `page.close()`; an exception from `page.goto` (or the
`IndexError` in the meta probe) propagates to the caller. -/
def _page_attempt (e : PageEnv) (_u : String) : Except PyExn (Option String) :=
  if e.gotoRaises then .error .navTimeout else canonicalStep e

/-- The request-level strategy (lines 60-74): the redirected final URL if
final, else the body's meta-refresh target if final, else no candidate;
transport errors yield no candidate. -/
def requestStage (ro : ReqOutcome) (url : String) : Option String :=
  match ro with
  | .err => none
  | .noResp => none
  | .resp rurl body =>
    if rurl ≠ "" ∧ _looks_google rurl = false then some rurl
    else
      match body with
      | none => none
      | some html =>
        match _extract_meta_refresh html (if rurl ≠ "" then rurl else url) with
        | some mu => if mu ≠ "" ∧ _looks_google mu = false then some mu else none
        | none => none

/-- Consent-bypass retry (lines 113-117): apply the cookies, attempt the
page once more, return its candidate if final, else a null result. -/
def _resolve_retry (env : ResolveEnv) (url : String) :
    Except PyExn (Option String) × List Eff :=
  match _page_attempt env.page2 url with
  | .error e => (.error e, [.consent, .page])
  | .ok (some f) =>
    if f ≠ "" ∧ _looks_google f = false then (.ok (some f), [.consent, .page])
    else (.ok none, [.consent, .page])
  | .ok none => (.ok none, [.consent, .page])

/-- `_resolve_one` after the direct-parameter strategy has fallen through. -/
def _resolve_one_rest (cfg : LocaleConfig) (env : ResolveEnv) (url0 : String) :
    Except PyExn (Option String) × List Eff :=
  let url := _maybe_add_locale cfg url0
  match requestStage env.req url with
  | some r => (.ok (some r), [.reqGet])
  | none =>
    match _page_attempt env.page1 url with
    | .error e => (.error e, [.reqGet, .page])
    | .ok (some f) =>
      if f ≠ "" ∧ _looks_google f = false then (.ok (some f), [.reqGet, .page])
      else
        let r := _resolve_retry env url
        (r.1, .reqGet :: .page :: r.2)
    | .ok none =>
      let r := _resolve_retry env url
      (r.1, .reqGet :: .page :: r.2)

/-- `_resolve_one(context, url)`: the whole strategy chain of one task,
returning its outcome and the trace of external effects. -/
def _resolve_one (cfg : LocaleConfig) (env : ResolveEnv) (url : String) :
    Except PyExn (Option String) × List Eff :=
  match _try_decode_direct url with
  | some d => if d = "" then _resolve_one_rest cfg env url else (.ok (some d), [])
  | none => _resolve_one_rest cfg env url

/-! ## Batch orchestration (`_resolver`, `resolve_links_from_jsonl`)

`asyncio.gather(*(worker(u) for u in urls))` awaits all workers and
returns their results in argument order; with the default
`return_exceptions=False`, the first exception to occur (in completion
order, modelled by the list `σ` of task indices) is raised to the awaiter
instead of a result list.  Cooperative single-threaded scheduling means a
task's result depends only on its own environment, so each worker is the
pure `_resolve_one` of its environment. -/

/-- The per-task outcomes of a batch, in input order (`worker(u)` bodies). -/
def taskOutcomes (cfg : LocaleConfig) (envs : Nat → ResolveEnv) :
    Nat → List String → List (Except PyExn (Option String))
  | _, [] => []
  | i, u :: t => (_resolve_one cfg (envs i) u).1 :: taskOutcomes cfg envs (i + 1) t

/-- The first exception in completion order `σ`, if any. -/
def firstErrBy (rs : List (Except PyExn (Option String))) (σ : List Nat) :
    Option PyExn :=
  σ.findSome? fun i =>
    match rs.get? i with
    | some (.error e) => some e
    | _ => none

/-- All-ok aggregation in input order, else the first error in input order. -/
def seqExcept : List (Except PyExn (Option String)) →
    Except PyExn (List (Option String))
  | [] => .ok []
  | .error e :: _ => .error e
  | .ok v :: t =>
    match seqExcept t with
    | .ok vs => .ok (v :: vs)
    | .error e => .error e

/-- `asyncio.gather` semantics over the already-determined task outcomes:
an exception (the completion-order-first one) if any task raised, else the
results in input order. -/
def gatherExcept (rs : List (Except PyExn (Option String))) (σ : List Nat) :
    Except PyExn (List (Option String)) :=
  match firstErrBy rs σ with
  | some e => .error e
  | none => seqExcept rs

/-- `_resolver(urls)`: resolve all URLs under the shared context. -/
def _resolver (cfg : LocaleConfig) (envs : Nat → ResolveEnv) (urls : List String)
    (σ : List Nat) : Except PyExn (List (Option String)) :=
  gatherExcept (taskOutcomes cfg envs 0 urls) σ

/-- One input record of `resolve_links_from_jsonl`: the value of its
`link` field if present, and the rest of the record, carried through
opaquely. -/
structure Item (α : Type) where
  linkField : Option String
  rest : α
deriving DecidableEq

/-- `it.get("link", "")`. -/
def itemLink {α : Type} (it : Item α) : String := it.linkField.getD ""

/-- One output record: the input record plus its `resolved_url` field. -/
structure EnrichedItem (α : Type) where
  linkField : Option String
  rest : α
  resolved_url : Option String
deriving DecidableEq

/-- The `zip(items, resolved)` write-out loop. -/
def enrich {α : Type} : List (Item α) → List (Option String) → List (EnrichedItem α)
  | it :: ts, r :: rs => ⟨it.linkField, it.rest, r⟩ :: enrich ts rs
  | _, _ => []

/-- The record-level core of `resolve_links_from_jsonl`: read the `link`
fields, resolve them, and append `resolved_url` to each record (the
surrounding path handling and JSON serialization are I/O plumbing). -/
def resolve_links_from_jsonl {α : Type} (cfg : LocaleConfig)
    (envs : Nat → ResolveEnv) (σ : List Nat) (items : List (Item α)) :
    Except PyExn (List (EnrichedItem α)) :=
  match _resolver cfg envs (items.map itemLink) σ with
  | .error e => .error e
  | .ok resolved => .ok (enrich items resolved)

/-! ## The consent-cookie jar (`_bypass_consent`)

The browser context's cookie jar is modelled as a map keyed by cookie
name, domain and path; `context.add_cookies` overwrites the entry with
the matching key. -/

/-- One cookie as passed to `context.add_cookies`. -/
structure Cookie where
  name : String
  value : String
  domain : String
  cpath : String
  expires : Nat
deriving DecidableEq

/-- A cookie jar: (name, domain, path) to (value, expires). -/
def Jar : Type := String × String × String → Option (String × Nat)

/-- Add one cookie, overwriting any cookie with the same key. -/
def addCookie (j : Jar) (c : Cookie) : Jar :=
  fun k => if k = (c.name, c.domain, c.cpath) then some (c.value, c.expires) else j k

/-- `context.add_cookies(cookies)`. -/
def add_cookies (j : Jar) (cs : List Cookie) : Jar := cs.foldl addCookie j

/-- The cookie list built by `_bypass_consent`: `CONSENT=YES+` and
`SOCS=CAI` for the three aggregator domains, expiring a year from `now`. -/
def consentCookieList (now : Nat) : List Cookie :=
  let future := now + 3600 * 24 * 365
  [⟨"CONSENT", "YES+", ".google.com", "/", future⟩,
   ⟨"SOCS", "CAI", ".google.com", "/", future⟩,
   ⟨"CONSENT", "YES+", ".consent.google.com", "/", future⟩,
   ⟨"SOCS", "CAI", ".consent.google.com", "/", future⟩,
   ⟨"CONSENT", "YES+", ".news.google.com", "/", future⟩,
   ⟨"SOCS", "CAI", ".news.google.com", "/", future⟩]

/-- `_bypass_consent(context)` acting on the context's cookie jar. -/
def _bypass_consent (now : Nat) (j : Jar) : Jar :=
  add_cookies j (consentCookieList now)

/-! ## The admission gate (`asyncio.Semaphore(concurrency)`)

The orchestration is modelled as a transition system over the phases of
the batch's tasks.  `async with sem:` admits a task only while fewer than
`N` tasks hold a slot, and releases the slot when the body finishes,
normally or by exception — so a finished task never holds a slot. -/

/-- Phase of one resolution task: not yet admitted, holding a slot, or
completed (`ok = false` when the body raised). -/
inductive TaskPhase where
  | pending
  | running
  | done (ok : Bool)
deriving DecidableEq

/-- Does this phase hold an admission slot? -/
def holdsSlot : TaskPhase → Bool
  | .running => true
  | _ => false

/-- Number of concurrently active (slot-holding) tasks. -/
def activeCount (s : List TaskPhase) : Nat := s.countP holdsSlot

/-- One scheduler step under an admission gate of width `N`: a pending
task may start only while fewer than `N` tasks are active; a running task
may finish with either outcome, releasing its slot unconditionally. -/
inductive SemStep (N : Nat) : List TaskPhase → List TaskPhase → Prop
  | start (s : List TaskPhase) (i : Nat) (hp : s.get? i = some .pending)
      (hc : activeCount s < N) : SemStep N s (s.set i .running)
  | finish (s : List TaskPhase) (i : Nat) (ok : Bool)
      (hr : s.get? i = some .running) : SemStep N s (s.set i (.done ok))

/-- The initial state of a batch of `n` tasks. -/
def initTasks (n : Nat) : List TaskPhase := List.replicate n .pending

/-- States reachable by the scheduler. -/
def SemReachable (N n : Nat) (s : List TaskPhase) : Prop :=
  Relation.ReflTransGen (SemStep N) (initTasks n) s

/-! ## Concrete environments used in scenario theorems -/

/-- A page attempt that finds nothing and settles on an empty URL. -/
def dummyPage : PageEnv := ⟨false, none, none, none, "", ""⟩

/-- An environment whose request raises and whose pages find nothing. -/
def dummyEnv : ResolveEnv := ⟨.err, dummyPage, dummyPage⟩

/-- A page attempt whose navigation times out. -/
def timeoutPage : PageEnv := ⟨true, none, none, none, "", ""⟩

/-- An environment for a URL whose every strategy times out: the request
raises, and both page attempts raise navigation timeouts. -/
def timeoutEnv : ResolveEnv := ⟨.err, timeoutPage, dummyPage⟩

/-- An environment whose request settles on a publisher URL. -/
def okReqEnv : ResolveEnv := ⟨.resp "https://ok.example/x" none, dummyPage, dummyPage⟩

/-- A page attempt that stays stuck on the aggregator host. -/
def stuckPage : PageEnv := ⟨false, none, none, none, "", "https://news.google.com/stuck"⟩

/-- An environment in which the request errs and both page attempts end
stuck on the aggregator host. -/
def stuckEnv : ResolveEnv := ⟨.err, stuckPage, stuckPage⟩

/-- Batch environments for the timeout scenario: task 0 times out, every
other task resolves at the request level. -/
def c2Envs : Nat → ResolveEnv := fun i => if i = 0 then timeoutEnv else okReqEnv

/-! ## Supporting lemmas -/

theorem settleStep_not_google {e : PageEnv} {f : String}
    (h : settleStep e = .ok (some f)) : _looks_google f = false := by
  unfold settleStep at h
  split at h
  · rename_i hc
    cases h
    exact hc.2
  · cases h

theorem metaStep_not_google {e : PageEnv} {f : String}
    (h : metaStep e = .ok (some f)) : _looks_google f = false := by
  unfold metaStep at h
  split at h
  · split at h
    · split at h
      · simp only at h
        split at h
        · split at h
          · rename_i hg
            cases h
            exact hg
          · exact settleStep_not_google h
        · exact settleStep_not_google h
      · cases h
    · exact settleStep_not_google h
  · exact settleStep_not_google h

theorem ogStep_not_google {e : PageEnv} {f : String}
    (h : ogStep e = .ok (some f)) : _looks_google f = false := by
  unfold ogStep at h
  split at h
  · split at h
    · rename_i hc
      cases h
      exact hc.2
    · exact metaStep_not_google h
  · exact metaStep_not_google h

theorem canonicalStep_not_google {e : PageEnv} {f : String}
    (h : canonicalStep e = .ok (some f)) : _looks_google f = false := by
  unfold canonicalStep at h
  split at h
  · split at h
    · rename_i hc
      cases h
      exact hc.2
    · exact ogStep_not_google h
  · exact ogStep_not_google h

theorem page_attempt_not_google {e : PageEnv} {u f : String}
    (h : _page_attempt e u = .ok (some f)) : _looks_google f = false := by
  unfold _page_attempt at h
  split at h
  · cases h
  · exact canonicalStep_not_google h

theorem requestStage_not_google {ro : ReqOutcome} {url r : String}
    (h : requestStage ro url = some r) : _looks_google r = false := by
  unfold requestStage at h
  split at h
  · cases h
  · cases h
  · split at h
    · rename_i hc
      cases h
      exact hc.2
    · split at h
      · cases h
      · split at h
        · split at h
          · rename_i hc
            cases h
            exact hc.2
          · cases h
        · cases h

theorem resolve_retry_not_google {env : ResolveEnv} {url f : String}
    (h : (_resolve_retry env url).1 = .ok (some f)) :
    _looks_google f = false := by
  unfold _resolve_retry at h
  split at h
  · cases h
  · split at h
    · rename_i hc
      cases h
      exact hc.2
    · cases h
  · cases h

theorem resolve_rest_not_google {cfg : LocaleConfig} {env : ResolveEnv}
    {url0 f : String} {tr : List Eff}
    (h : _resolve_one_rest cfg env url0 = (.ok (some f), tr)) :
    _looks_google f = false := by
  unfold _resolve_one_rest at h
  simp only at h
  split at h
  · rename_i hr
    cases h
    exact requestStage_not_google hr
  · split at h
    · cases h
    · rename_i hp
      split at h
      · rename_i hc
        cases h
        exact hc.2
      · have h1 := congrArg Prod.fst h
        simp only at h1
        exact resolve_retry_not_google h1
    · have h1 := congrArg Prod.fst h
      simp only at h1
      exact resolve_retry_not_google h1

/-! ## Claim theorems -/

/-- Claim C1, counterexample: the claim says every candidate, including the
decoded `url` query parameter, is returned only if the classifier judges it
final.  On the input below the decoded `url` parameter is an aggregator URL
(`_looks_google` is true for it), yet `_resolve_one` returns it as the
task's result, so the claim as stated is false. -/
theorem direct_param_skips_classifier_cex :
    (_resolve_one defaultLocale dummyEnv "https://a.test/x?url=https://news.google.com/y").1 =
      .ok (some "https://news.google.com/y") ∧
    _looks_google "https://news.google.com/y" = true := by
  exact ⟨rfl, by decide⟩

/-- Claim C1, amended: every candidate produced by the network and
page-level strategies is classifier-checked, so whenever the resolution of
a URL with no (nonempty) decoded `url` query parameter returns a result,
that result's host is never in the aggregator or consent domain family;
the direct query-parameter decode alone bypasses the classifier. -/
theorem non_direct_results_not_google (cfg : LocaleConfig) (env : ResolveEnv)
    (url r : String) (tr : List Eff)
    (hd : _try_decode_direct url = none)
    (h : _resolve_one cfg env url = (.ok (some r), tr)) :
    _looks_google r = false := by
  unfold _resolve_one at h
  rw [hd] at h
  exact resolve_rest_not_google h

/-- Witness for `non_direct_results_not_google` at a concrete input: a
request-level redirect to a publisher is accepted and is not aggregator. -/
theorem non_direct_results_not_google_witness :
    _looks_google "https://ok.example/x" = false :=
  non_direct_results_not_google defaultLocale okReqEnv
    "https://news.google.com/rss/articles/CCC" "https://ok.example/x"
    [Eff.reqGet] (by decide) rfl

/-- Claim C2 (code bug): the claim says `TransportFailure`,
`NavigationTimeout` and `ClassificationReject` are all recovered inside the
task and that a URL whose every strategy times out yields a null result
while the batch still completes.  In the code, `_page_attempt` wraps
`page.goto` in `try/finally` with no `except`, so a navigation timeout
escapes `_resolve_one`; `asyncio.gather` is called without
`return_exceptions`, so the whole batch raises and the results of the
other, successfully resolved URLs are lost.  This theorem evaluates the
embedding at such an input: the task's outcome is the exception, and the
two-URL batch errors even though its second task resolved. -/
theorem nav_timeout_escapes_task_and_batch :
    (_resolve_one defaultLocale timeoutEnv "https://news.google.com/rss/articles/AAA").1 =
      .error .navTimeout ∧
    _resolver defaultLocale c2Envs
      ["https://news.google.com/rss/articles/AAA",
       "https://news.google.com/rss/articles/BBB"] [0, 1] = .error .navTimeout ∧
    (_resolve_one defaultLocale (c2Envs 1) "https://news.google.com/rss/articles/BBB").1 =
      .ok (some "https://ok.example/x") := by
  exact ⟨rfl, rfl, rfl⟩

/-- Claim C4: when the indirection URL carries a `url` query parameter
whose (first) decoded value is nonempty and is not an aggregator host, the
task returns exactly that decoded value and performs no effect at all (no
request, no page navigation, no cookie write): strategy 1 short-circuits. -/
theorem direct_param_short_circuit (cfg : LocaleConfig) (env : ResolveEnv)
    (url d : String) (h1 : _try_decode_direct url = some d) (h2 : d ≠ "")
    (_h3 : _looks_google d = false) :
    _resolve_one cfg env url = (.ok (some d), []) := by
  unfold _resolve_one
  rw [h1]
  simp [h2]

/-- Witness for `direct_param_short_circuit` on the spec's scenario URL. -/
theorem direct_param_short_circuit_witness :
    _resolve_one defaultLocale dummyEnv
      "https://news.example/rss/articles/XYZ?url=https://elpais.com/a" =
      (.ok (some "https://elpais.com/a"), []) :=
  direct_param_short_circuit defaultLocale dummyEnv
    "https://news.example/rss/articles/XYZ?url=https://elpais.com/a"
    "https://elpais.com/a" (by decide) (by decide) (by decide)

/-- Claim C5: when the direct decode and the request-level strategy yield
nothing and the first page-level attempt completes with no final
candidate, the task applies the consent cookies once and repeats the page
attempt exactly once more — the effect trace is exactly one request, one
page attempt, one cookie write, one page attempt — and when the second
attempt also completes with no final candidate the task's result is null. -/
theorem consent_retry_exactly_once (cfg : LocaleConfig) (env : ResolveEnv)
    (url : String)
    (h1 : _try_decode_direct url = none)
    (h2 : requestStage env.req (_maybe_add_locale cfg url) = none)
    (h3 : _page_attempt env.page1 (_maybe_add_locale cfg url) = .ok none)
    (h4 : _page_attempt env.page2 (_maybe_add_locale cfg url) = .ok none) :
    _resolve_one cfg env url = (.ok none, [.reqGet, .page, .consent, .page]) := by
  unfold _resolve_one
  rw [h1]
  unfold _resolve_one_rest
  simp only
  rw [h2, h3]
  unfold _resolve_retry
  rw [h4]

/-- Witness for `consent_retry_exactly_once`: both attempts end stuck on
the aggregator host, so the result is null after exactly two attempts. -/
theorem consent_retry_exactly_once_witness :
    _resolve_one defaultLocale stuckEnv "https://example.com/a" =
      (.ok none, [.reqGet, .page, .consent, .page]) :=
  consent_retry_exactly_once defaultLocale stuckEnv "https://example.com/a"
    (by decide) (by decide) rfl rfl

/-- Claim C6, counterexample: the claim says locale augmentation returns a
URL whose query string contains `hl`, `gl` and `ceid`.  On an aggregator
article link with no query string, the code appends `&hl=...` with no `?`,
so the parameters land in the path: the parsed query of the result is
empty and `hl` is absent from it. -/
theorem locale_missing_query_cex :
    _maybe_add_locale defaultLocale "https://news.google.com/rss/articles/ABC" =
      "https://news.google.com/rss/articles/ABC&hl=es&gl=ES&ceid=ES:es" ∧
    (urlparseL (_maybe_add_locale defaultLocale
        "https://news.google.com/rss/articles/ABC").data []).query = [] ∧
    parseQsFirst (urlparseL (_maybe_add_locale defaultLocale
        "https://news.google.com/rss/articles/ABC").data []).query "hl".data = none := by
  exact ⟨rfl, rfl, rfl⟩

/-- Claim C6, amended: for every URL whose host ends with
`news.google.com` and whose path contains `/rss/articles/`, locale
augmentation appends `&hl=<hl>&gl=<gl>&ceid=<ceid>` textually to the link
(preceded by one more `&` when the link already has a query string), so
the parameters reach the parsed query string only in that case; every URL
failing the host-suffix or path test is returned unchanged. -/
theorem locale_append_amended (cfg : LocaleConfig) (link : String) :
    (lendsWith (urlparseL link.data []).netloc "news.google.com".data = true →
     containsSub (urlparseL link.data []).path "/rss/articles/".data = true →
     _maybe_add_locale cfg link =
       link ++ (if (urlparseL link.data []).query ≠ [] then "&" else "") ++
         "&hl=" ++ cfg.hl ++ "&gl=" ++ cfg.gl ++ "&ceid=" ++ cfg.ceid) ∧
    ((lendsWith (urlparseL link.data []).netloc "news.google.com".data = false ∨
      containsSub (urlparseL link.data []).path "/rss/articles/".data = false) →
     _maybe_add_locale cfg link = link) := by
  constructor
  · intro h1 h2
    simp only [_maybe_add_locale]
    rw [h1, h2]
    simp [String.append_assoc]
  · intro h
    simp only [_maybe_add_locale]
    rcases h with h | h <;> rw [h] <;> simp

/-- Witness for `locale_append_amended`: a link that already has a query
string receives the parameters after a doubled ampersand. -/
theorem locale_append_amended_witness :
    _maybe_add_locale defaultLocale "https://news.google.com/rss/articles/XYZ?oc=5" =
      "https://news.google.com/rss/articles/XYZ?oc=5&&hl=es&gl=ES&ceid=ES:es" := by
  have h := (locale_append_amended defaultLocale
    "https://news.google.com/rss/articles/XYZ?oc=5").1 (by decide) (by decide)
  rw [h]
  rfl

/-- Claim C8: applying the consent-cookie injection twice to the same
cookie jar (keyed by cookie name, domain and path) gives the same jar as
applying it once — `_bypass_consent` is idempotent. -/
theorem bypass_consent_idempotent (now : Nat) (j : Jar) :
    _bypass_consent now (_bypass_consent now j) = _bypass_consent now j := by
  funext k
  simp only [_bypass_consent, add_cookies, consentCookieList, List.foldl_cons,
    List.foldl_nil, addCookie]
  split_ifs <;> rfl

/-- Claim C10, counterexample: the claim concludes that hosts whose name
merely ends in `google.com` can never be returned as `resolved_url`; but
such a host arriving through the un-classified direct `url` parameter is
returned, so the claim as stated is false. -/
theorem suffix_host_returned_cex :
    (_resolve_one defaultLocale dummyEnv "https://pub.test/a?url=https://lagoogle.com/b").1 =
      .ok (some "https://lagoogle.com/b") ∧
    _looks_google "https://lagoogle.com/b" = true := by
  exact ⟨rfl, by decide⟩

/-- Claim C10, amended: the classifier rejects (treats as non-final) every
URL whose host string ends with `google.com`, `news.google.com` or
`consent.google.com`, including unrelated hosts such as `lagoogle.com`
whose suffix merely coincides; so such hosts are never produced by any
classifier-checked candidate source — only the direct `url` query
parameter decode, which bypasses the classifier, can still return one. -/
theorem classifier_rejects_suffix_hosts (u : String)
    (h : lendsWith (urlparseL u.data []).netloc "news.google.com".data = true ∨
         lendsWith (urlparseL u.data []).netloc "consent.google.com".data = true ∨
         lendsWith (urlparseL u.data []).netloc "google.com".data = true) :
    _looks_google u = true := by
  unfold _looks_google
  rcases h with h | h | h <;> simp [h]

/-- Witness for `classifier_rejects_suffix_hosts` at `lagoogle.com`. -/
theorem classifier_rejects_suffix_hosts_witness :
    _looks_google "https://lagoogle.com/x" = true :=
  classifier_rejects_suffix_hosts "https://lagoogle.com/x"
    (Or.inr (Or.inr (by decide)))

theorem countP_set_eq (l : List TaskPhase) (i : Nat) (a b : TaskPhase)
    (h : l.get? i = some a) :
    (l.set i b).countP holdsSlot + (if holdsSlot a then 1 else 0) =
      l.countP holdsSlot + (if holdsSlot b then 1 else 0) := by
  induction l generalizing i with
  | nil => simp at h
  | cons x t ih =>
    cases i with
    | zero =>
      simp only [List.get?] at h
      cases h
      simp only [List.set, List.countP_cons]
      omega
    | succ n =>
      simp only [List.get?] at h
      have := ih n h
      simp only [List.set, List.countP_cons]
      omega

theorem activeCount_init (n : Nat) : activeCount (initTasks n) = 0 := by
  induction n with
  | zero => rfl
  | succ m ih =>
    simp only [initTasks, List.replicate_succ, activeCount, List.countP_cons] at *
    simp [holdsSlot, ih]

/-- Claim C9: in every scheduler state reachable under an admission gate of
width `N`, at most `N` resolution tasks are concurrently active; and a
running task can always finish — with success or failure alike — and doing
so releases its slot (the active count drops by one unconditionally). -/
theorem admission_gate_bounds_active_tasks (N n : Nat) :
    (∀ s, SemReachable N n s → activeCount s ≤ N) ∧
    (∀ (s : List TaskPhase) (i : Nat) (ok : Bool),
      s.get? i = some TaskPhase.running →
      SemStep N s (s.set i (TaskPhase.done ok)) ∧
      activeCount (s.set i (TaskPhase.done ok)) + 1 = activeCount s) := by
  constructor
  · intro s h
    unfold SemReachable at h
    induction h with
    | refl => simp [activeCount_init]
    | tail _ hstep ih =>
      cases hstep with
      | start i hp hc =>
        have := countP_set_eq _ i _ TaskPhase.running hp
        simp [activeCount, holdsSlot] at this ih hc ⊢
        omega
      | finish i ok hr =>
        have := countP_set_eq _ i _ (TaskPhase.done ok) hr
        simp [activeCount, holdsSlot] at this ih ⊢
        omega
  · intro s i ok hr
    refine ⟨SemStep.finish s i ok hr, ?_⟩
    have := countP_set_eq s i _ (TaskPhase.done ok) hr
    simp [activeCount, holdsSlot] at this ⊢
    omega

/-- Witness for `admission_gate_bounds_active_tasks`: the initial state of
a 20-task batch under the default limit 5, and one finishing task. -/
theorem admission_gate_bounds_active_tasks_witness :
    activeCount (initTasks 20) ≤ 5 ∧
    activeCount ([TaskPhase.running].set 0 (TaskPhase.done true)) + 1 =
      activeCount [TaskPhase.running] := by
  constructor
  · exact (admission_gate_bounds_active_tasks 5 20).1 (initTasks 20)
      Relation.ReflTransGen.refl
  · exact ((admission_gate_bounds_active_tasks 5 1).2 [TaskPhase.running] 0 true
      rfl).2

theorem taskOutcomes_length (cfg : LocaleConfig) (envs : Nat → ResolveEnv) :
    ∀ (urls : List String) (i : Nat),
      (taskOutcomes cfg envs i urls).length = urls.length := by
  intro urls
  induction urls with
  | nil => intro i; rfl
  | cons u t ih =>
    intro i
    simp only [taskOutcomes, List.length_cons, ih]

theorem taskOutcomes_get (cfg : LocaleConfig) (envs : Nat → ResolveEnv) :
    ∀ (urls : List String) (i j : Nat)
      (h1 : j < (taskOutcomes cfg envs i urls).length) (h2 : j < urls.length),
      (taskOutcomes cfg envs i urls).get ⟨j, h1⟩ =
        (_resolve_one cfg (envs (i + j)) (urls.get ⟨j, h2⟩)).1 := by
  intro urls
  induction urls with
  | nil => intro i j h1 h2; simp at h2
  | cons u t ih =>
    intro i j h1 h2
    cases j with
    | zero => rfl
    | succ m =>
      have := ih (i + 1) m (by simpa [taskOutcomes] using h1) (by simpa using h2)
      simpa [taskOutcomes, Nat.add_assoc, Nat.add_comm 1 m] using this

theorem seqExcept_ok (rs : List (Except PyExn (Option String))) :
    ∀ (vs : List (Option String)), seqExcept rs = .ok vs →
      vs.length = rs.length ∧
      ∀ (j : Nat) (h1 : j < rs.length) (h2 : j < vs.length),
        rs.get ⟨j, h1⟩ = .ok (vs.get ⟨j, h2⟩) := by
  induction rs with
  | nil =>
    intro vs h
    cases h
    exact ⟨rfl, by intro j h1; simp at h1⟩
  | cons r t ih =>
    intro vs h
    cases r with
    | error e => cases h
    | ok v =>
      simp only [seqExcept] at h
      cases hseq : seqExcept t with
      | error e => rw [hseq] at h; cases h
      | ok vs' =>
        rw [hseq] at h
        cases h
        obtain ⟨hl, hg⟩ := ih vs' hseq
        constructor
        · simp [hl]
        · intro j h1 h2
          cases j with
          | zero => rfl
          | succ m => exact hg m (by simpa using h1) (by simpa using h2)

theorem gatherExcept_ok (rs : List (Except PyExn (Option String)))
    (σ : List Nat) (vs : List (Option String))
    (h : gatherExcept rs σ = .ok vs) : seqExcept rs = .ok vs := by
  unfold gatherExcept at h
  split at h
  · cases h
  · exact h

theorem enrich_length {α : Type} :
    ∀ (its : List (Item α)) (rs : List (Option String)),
      rs.length = its.length → (enrich its rs).length = its.length := by
  intro its
  induction its with
  | nil => intro rs _; cases rs <;> rfl
  | cons it t ih =>
    intro rs h
    cases rs with
    | nil => simp at h
    | cons r rt =>
      simp only [enrich, List.length_cons]
      rw [ih rt (by simpa using h)]

theorem enrich_get {α : Type} :
    ∀ (its : List (Item α)) (rs : List (Option String)) (j : Nat)
      (h1 : j < its.length) (h2 : j < rs.length)
      (h3 : j < (enrich its rs).length),
      ((enrich its rs).get ⟨j, h3⟩).linkField = (its.get ⟨j, h1⟩).linkField ∧
      ((enrich its rs).get ⟨j, h3⟩).rest = (its.get ⟨j, h1⟩).rest ∧
      ((enrich its rs).get ⟨j, h3⟩).resolved_url = rs.get ⟨j, h2⟩ := by
  intro its
  induction its with
  | nil => intro rs j h1; simp at h1
  | cons it t ih =>
    intro rs j h1 h2 h3
    cases rs with
    | nil => simp at h2
    | cons r rt =>
      cases j with
      | zero => exact ⟨rfl, rfl, rfl⟩
      | succ m =>
        exact ih rt m (by simpa using h1) (by simpa using h2)
          (by simpa [enrich] using h3)

/-- Claim C3: whenever the resolver returns (it can instead raise; see the
navigation-timeout theorems), the returned list has the same length as the
input and the entry at position `i` is the resolution of the URL at
position `i` — independently of the completion order `σ`, which is
universally quantified; and the enriched output records of the JSONL core
preserve the input records and their order, with `resolved_url` attached
positionally. -/
theorem resolver_preserves_length_and_order (cfg : LocaleConfig)
    (envs : Nat → ResolveEnv) (σ : List Nat) :
    (∀ (urls : List String) (rs : List (Option String)),
      _resolver cfg envs urls σ = .ok rs →
      rs.length = urls.length ∧
      ∀ (i : Nat) (h1 : i < urls.length) (h2 : i < rs.length),
        (_resolve_one cfg (envs i) (urls.get ⟨i, h1⟩)).1 = .ok (rs.get ⟨i, h2⟩)) ∧
    (∀ (α : Type) (items : List (Item α)) (out : List (EnrichedItem α)),
      resolve_links_from_jsonl cfg envs σ items = .ok out →
      out.length = items.length ∧
      ∀ (i : Nat) (h1 : i < items.length) (h2 : i < out.length),
        (out.get ⟨i, h2⟩).linkField = (items.get ⟨i, h1⟩).linkField ∧
        (out.get ⟨i, h2⟩).rest = (items.get ⟨i, h1⟩).rest ∧
        (_resolve_one cfg (envs i) (itemLink (items.get ⟨i, h1⟩))).1 =
          .ok ((out.get ⟨i, h2⟩).resolved_url)) := by
  have main : ∀ (urls : List String) (rs : List (Option String)),
      _resolver cfg envs urls σ = .ok rs →
      rs.length = urls.length ∧
      ∀ (i : Nat) (h1 : i < urls.length) (h2 : i < rs.length),
        (_resolve_one cfg (envs i) (urls.get ⟨i, h1⟩)).1 = .ok (rs.get ⟨i, h2⟩) := by
    intro urls rs h
    have hseq := gatherExcept_ok _ _ _ h
    obtain ⟨hl, hg⟩ := seqExcept_ok _ _ hseq
    have hterm := taskOutcomes_length cfg envs urls 0
    constructor
    · rw [hl, hterm]
    · intro i h1 h2
      have hi : i < (taskOutcomes cfg envs 0 urls).length := by rw [hterm]; exact h1
      have := hg i hi h2
      rw [taskOutcomes_get cfg envs urls 0 i hi h1] at this
      simpa using this
  refine ⟨main, ?_⟩
  intro α items out h
  unfold resolve_links_from_jsonl at h
  cases hres : _resolver cfg envs (items.map itemLink) σ with
  | error e => rw [hres] at h; cases h
  | ok resolved =>
    rw [hres] at h
    cases h
    obtain ⟨hl, hg⟩ := main _ _ hres
    have hlen : resolved.length = items.length := by simpa using hl
    constructor
    · exact enrich_length items resolved hlen
    · intro i h1 h2
      have h2r : i < resolved.length := by rw [hlen]; exact h1
      obtain ⟨e1, e2, e3⟩ := enrich_get items resolved i h1 h2r h2
      refine ⟨e1, e2, ?_⟩
      rw [e3]
      have hm : i < (items.map itemLink).length := by simpa using h1
      have := hg i hm h2r
      have hmap : (items.map itemLink).get ⟨i, hm⟩ = itemLink (items.get ⟨i, h1⟩) := by
        simp
      rw [hmap] at this
      exact this

/-- Batch environments for the order-preservation witness. -/
def c3Envs : Nat → ResolveEnv := fun i => if i = 0 then dummyEnv else okReqEnv

/-- Witness for `resolver_preserves_length_and_order` on a two-URL batch
with reversed completion order `[1, 0]`. -/
theorem resolver_preserves_length_and_order_witness :
    ([some "https://elpais.com/a", some "https://ok.example/x"] :
        List (Option String)).length =
      (["https://news.example/rss/articles/XYZ?url=https://elpais.com/a",
        "https://news.google.com/rss/articles/BBB"] : List String).length ∧
    (_resolve_one defaultLocale (c3Envs 1)
        "https://news.google.com/rss/articles/BBB").1 =
      .ok (some "https://ok.example/x") := by
  have h := (resolver_preserves_length_and_order defaultLocale c3Envs [1, 0]).1
    ["https://news.example/rss/articles/XYZ?url=https://elpais.com/a",
     "https://news.google.com/rss/articles/BBB"]
    [some "https://elpais.com/a", some "https://ok.example/x"] rfl
  exact ⟨h.1, h.2 1 (by decide) (by decide)⟩

/-! ## Lemmas about the meta-refresh matcher -/

/-- The content-value prefix `0; url=` used in the recognized form. -/
def runPre : List Char := "0; url=".data

/-- The recognized directive text up to the capture:
`http-equiv="refresh" content="0; url=`. -/
def dData : List Char := "http-equiv=\"refresh\" content=\"0; url=".data

theorem litUrlEq_eq : litUrlEq = ['u', 'r', 'l', '='] := by decide

theorem lstartsWithCI_nil (s : List Char) : lstartsWithCI s [] = true := by
  cases s <;> rfl

theorem lstartsWithCI_refl_append :
    ∀ (pat rest : List Char), lstartsWithCI (pat ++ rest) pat = true := by
  intro pat
  induction pat with
  | nil => intro rest; exact lstartsWithCI_nil rest
  | cons p ps ih =>
    intro rest
    simp only [List.cons_append, lstartsWithCI, if_pos rfl]
    exact ih rest

theorem stripLitCI_append (pat rest : List Char) :
    stripLitCI (pat ++ rest) pat = some rest := by
  unfold stripLitCI
  rw [lstartsWithCI_refl_append]
  simp

theorem matchAt_none_of_not_start {s : List Char}
    (h : lstartsWithCI s litHttpEquiv = false) : matchAt s = none := by
  unfold matchAt stripLitCI
  rw [h]
  simp

theorem containsSubCI_false_no_start :
    ∀ (l pat : List Char), containsSubCI l pat = false →
      ∀ i, lstartsWithCI (l.drop i) pat = false := by
  intro l
  induction l with
  | nil =>
    intro pat h i
    simpa [List.drop_nil] using h
  | cons c t ih =>
    intro pat h i
    rw [containsSubCI, Bool.or_eq_false_iff] at h
    cases i with
    | zero => exact h.1
    | succ m => exact ih pat h.2 m

theorem reSearch_none :
    ∀ (l : List Char), containsSubCI l litHttpEquiv = false →
      reSearchMeta l = none := by
  intro l
  induction l with
  | nil =>
    intro h
    exact matchAt_none_of_not_start (by simpa using h)
  | cons c t ih =>
    intro h
    rw [containsSubCI, Bool.or_eq_false_iff] at h
    rw [reSearchMeta, matchAt_none_of_not_start h.1]
    exact ih h.2

theorem reSearch_skip :
    ∀ (l rest : List Char),
      (∀ i, i < l.length → lstartsWithCI ((l ++ rest).drop i) litHttpEquiv = false) →
      reSearchMeta (l ++ rest) = reSearchMeta rest := by
  intro l
  induction l with
  | nil => intro rest _; rfl
  | cons c t ih =>
    intro rest h
    have h0 := h 0 (by simp)
    simp only [List.drop_zero, List.cons_append] at h0
    rw [List.cons_append, reSearchMeta, matchAt_none_of_not_start h0]
    exact ih rest (fun i hi => by
      have := h (i + 1) (by simpa using Nat.succ_lt_succ hi)
      simpa [List.cons_append] using this)

theorem reSearch_of_matchAt {l cap : List Char} (h : matchAt l = some cap) :
    reSearchMeta l = some cap := by
  cases l with
  | nil => rw [reSearchMeta]; exact h
  | cons c t => rw [reSearchMeta, h]

theorem stripOptQuote_dq (l : List Char) : stripOptQuote (dq :: l) = l := by
  simp only [stripOptQuote]
  rw [if_pos (by decide)]

theorem takeWhile_append_quote :
    ∀ (xs ys : List Char), (∀ c ∈ xs, isQuote c = false) →
      ((xs ++ dq :: ys).takeWhile (fun x => !isQuote x)) = xs := by
  intro xs
  induction xs with
  | nil =>
    intro ys _
    simp only [List.nil_append, List.takeWhile]
    rw [show (!isQuote dq) = false by decide]
  | cons x t ih =>
    intro ys h
    have hx : isQuote x = false := h x (by simp)
    simp only [List.cons_append, List.takeWhile, hx, Bool.not_false, List.append_eq]
    rw [ih ys (fun c hc => h c (by simp [hc]))]

theorem lastUrlCapture_cons_some {c : Char} {t cap : List Char}
    (h : lastUrlCapture t = some cap) : lastUrlCapture (c :: t) = some cap := by
  rw [lastUrlCapture, h]

theorem lastUrlCapture_cons_none {c : Char} {t : List Char}
    (h1 : lastUrlCapture t = none) (h2 : lstartsWithCI (c :: t) litUrlEq = false) :
    lastUrlCapture (c :: t) = none := by
  rw [lastUrlCapture, h1]
  simp [h2]

theorem lastUrlCapture_cons_hit {c : Char} {t : List Char}
    (h1 : lastUrlCapture t = none) (h2 : lstartsWithCI (c :: t) litUrlEq = true)
    (h3 : (c :: t).drop litUrlEq.length ≠ []) :
    lastUrlCapture (c :: t) = some ((c :: t).drop litUrlEq.length) := by
  rw [lastUrlCapture, h1]
  simp [h2, h3]

theorem lstartsWithCI_head_ne {c : Char} (hne : ¬lowerChar c = lowerChar 'u')
    (t : List Char) : lstartsWithCI (c :: t) litUrlEq = false := by
  rw [litUrlEq_eq]
  simp only [lstartsWithCI]
  rw [if_neg hne]

theorem lastUrlCapture_none_of :
    ∀ (l : List Char), (∀ i, lstartsWithCI (l.drop i) litUrlEq = false) →
      lastUrlCapture l = none := by
  intro l
  induction l with
  | nil => intro _; rfl
  | cons c t ih =>
    intro h
    have h0 := h 0
    simp only [List.drop_zero] at h0
    exact lastUrlCapture_cons_none (ih (fun i => h (i + 1))) h0

theorem lastUrl_runPre (tgt : List Char) (htne : tgt ≠ [])
    (hturl : containsSubCI tgt litUrlEq = false) :
    lastUrlCapture (runPre ++ tgt) = some tgt := by
  have h0 : lastUrlCapture tgt = none :=
    lastUrlCapture_none_of tgt (containsSubCI_false_no_start tgt litUrlEq hturl)
  have h1 : lastUrlCapture ('=' :: tgt) = none :=
    lastUrlCapture_cons_none h0 (lstartsWithCI_head_ne (by decide) tgt)
  have h2 : lastUrlCapture ('l' :: '=' :: tgt) = none :=
    lastUrlCapture_cons_none h1 (lstartsWithCI_head_ne (by decide) _)
  have h3 : lastUrlCapture ('r' :: 'l' :: '=' :: tgt) = none :=
    lastUrlCapture_cons_none h2 (lstartsWithCI_head_ne (by decide) _)
  have hu : lstartsWithCI ('u' :: 'r' :: 'l' :: '=' :: tgt) litUrlEq = true := by
    rw [litUrlEq_eq]
    simp [lstartsWithCI, lstartsWithCI_nil]
  have h4 : lastUrlCapture ('u' :: 'r' :: 'l' :: '=' :: tgt) = some tgt := by
    have := lastUrlCapture_cons_hit h3 hu (by
      rw [litUrlEq_eq]
      simpa [List.drop] using htne)
    rw [litUrlEq_eq] at this
    simpa [List.drop] using this
  have h5 : lastUrlCapture (' ' :: 'u' :: 'r' :: 'l' :: '=' :: tgt) = some tgt :=
    lastUrlCapture_cons_some h4
  have h6 : lastUrlCapture (';' :: ' ' :: 'u' :: 'r' :: 'l' :: '=' :: tgt) = some tgt :=
    lastUrlCapture_cons_some h5
  have h7 : lastUrlCapture ('0' :: ';' :: ' ' :: 'u' :: 'r' :: 'l' :: '=' :: tgt) = some tgt :=
    lastUrlCapture_cons_some h6
  exact h7

theorem litContent_eq : litContent = ['c', 'o', 'n', 't', 'e', 'n', 't', '='] := by
  decide

theorem takeWhile_space_content (R : List Char) :
    (' ' :: (litContent ++ R)).takeWhile isPySpace = [' '] := by
  rw [litContent_eq]
  simp only [List.cons_append, List.takeWhile]
  rw [show isPySpace ' ' = true by decide, show isPySpace 'c' = false by decide]

theorem dropWhile_space_content (R : List Char) :
    (' ' :: (litContent ++ R)).dropWhile isPySpace = litContent ++ R := by
  rw [litContent_eq]
  simp only [List.cons_append, List.dropWhile]
  rw [show isPySpace ' ' = true by decide, show isPySpace 'c' = false by decide]
  rfl

theorem matchAt_D (tgt post : List Char) (htne : tgt ≠ [])
    (htq : ∀ c ∈ tgt, isQuote c = false)
    (hturl : containsSubCI tgt litUrlEq = false) :
    matchAt (dData ++ (tgt ++ (dq :: post))) = some tgt := by
  have e : dData ++ (tgt ++ (dq :: post)) =
      litHttpEquiv ++ (dq :: (litRefresh ++ (dq :: (' ' :: (litContent ++
        (dq :: (runPre ++ (tgt ++ (dq :: post))))))))) := by
    have e0 : dData = litHttpEquiv ++ (dq :: (litRefresh ++ (dq :: (' ' ::
        (litContent ++ (dq :: runPre)))))) := by decide
    rw [e0]
    simp [List.append_assoc]
  rw [e]
  unfold matchAt
  rw [stripLitCI_append litHttpEquiv]
  simp only
  rw [stripOptQuote_dq, stripLitCI_append litRefresh]
  simp only
  rw [stripOptQuote_dq, takeWhile_space_content, dropWhile_space_content]
  rw [if_neg (by simp), stripLitCI_append litContent]
  simp only
  rw [matchFromContent]
  rw [if_pos (show isQuote dq = true by decide)]
  rw [show runPre ++ (tgt ++ (dq :: post)) = (runPre ++ tgt) ++ (dq :: post) by
    simp [List.append_assoc]]
  rw [takeWhile_append_quote (runPre ++ tgt) post (by
    intro c hc
    rcases List.mem_append.mp hc with h | h
    · revert h
      have : ∀ c ∈ runPre, isQuote c = false := by decide
      exact this c
    · exact htq c h)]
  exact lastUrl_runPre tgt htne hturl

/-- Claim C7, counterexample: the claim says the extraction returns the
target for every body containing a meta-refresh directive
(`http-equiv=refresh` with a `url=` target in its content attribute).
This body contains exactly such a directive, merely with the `content`
attribute written before `http-equiv` — yet the extraction returns no
candidate, because the pattern requires `http-equiv` first. -/
theorem meta_refresh_reversed_attrs_cex :
    _extract_meta_refresh
      "<meta content=\"0; url=https://pub.example/a\" http-equiv=\"refresh\">"
      "https://news.google.com/base" = none ∧
    containsSub
      "<meta content=\"0; url=https://pub.example/a\" http-equiv=\"refresh\">".data
      "http-equiv=\"refresh\"".data = true ∧
    containsSub
      "<meta content=\"0; url=https://pub.example/a\" http-equiv=\"refresh\">".data
      "content=\"0; url=https://pub.example/a\"".data = true := by
  exact ⟨rfl, by decide, by decide⟩

/-- Claim C7, amended: the extraction recognizes the directive only in the
attribute order of the pattern (`http-equiv` first, then whitespace, then
`content`).  For every body embedding the recognized form
`http-equiv="refresh" content="0; url=<target>"` — with the first
case-insensitive `http-equiv=` occurrence at the directive, a nonempty
quote-free target containing no further `url=` — the extraction returns
the target, stripped and resolved against the response's base URL with
`urljoin`; and every body with no case-insensitive occurrence of
`http-equiv=` at all yields no candidate. -/
theorem meta_refresh_extraction_amended (base : String) :
    (∀ (pre tgt post : List Char),
      (∀ i, i < pre.length →
        lstartsWithCI ((pre ++ (dData ++ (tgt ++ (dq :: post)))).drop i)
          litHttpEquiv = false) →
      tgt ≠ [] →
      (∀ c ∈ tgt, isQuote c = false) →
      containsSubCI tgt litUrlEq = false →
      _extract_meta_refresh (String.mk (pre ++ (dData ++ (tgt ++ (dq :: post))))) base =
        some (String.mk (urljoinL base.data (pyStrip tgt)))) ∧
    (∀ html : String, containsSubCI html.data litHttpEquiv = false →
      _extract_meta_refresh html base = none) := by
  constructor
  · intro pre tgt post hpre htne htq hturl
    have hm : matchAt (dData ++ (tgt ++ (dq :: post))) = some tgt :=
      matchAt_D tgt post htne htq hturl
    have hs : reSearchMeta (pre ++ (dData ++ (tgt ++ (dq :: post)))) = some tgt := by
      rw [reSearch_skip pre _ hpre]
      exact reSearch_of_matchAt hm
    unfold _extract_meta_refresh
    rw [show (String.mk (pre ++ (dData ++ (tgt ++ (dq :: post))))).data =
      pre ++ (dData ++ (tgt ++ (dq :: post))) from rfl]
    rw [hs]
  · intro html hc
    unfold _extract_meta_refresh
    rw [reSearch_none html.data hc]

/-- Witness for `meta_refresh_extraction_amended` at a concrete body. -/
theorem meta_refresh_extraction_amended_witness :
    _extract_meta_refresh (String.mk ("<head><meta ".data ++ (dData ++
        ("https://pub.example/art".data ++ (dq :: " />".data)))))
      "https://news.google.com/x" =
      some (String.mk (urljoinL "https://news.google.com/x".data
        (pyStrip "https://pub.example/art".data))) :=
  (meta_refresh_extraction_amended "https://news.google.com/x").1
    "<head><meta ".data "https://pub.example/art".data " />".data
    (by decide) (by decide) (by decide) (by decide)

end Newspeaker



